import Mathlib

/-!
Verification of the `aicspylibczi` Python wrapper (`CziFile.py`).

This file gives a shallow embedding of the Python layer of the repository:
the argument validation and forwarding logic of `CziFile`.  The native
compiled reader (`_aicspylibczi.Reader`) is opaque to the Python layer, so it
is modelled as a structure of response functions; where a claim depends on
the documented behaviour of the native reader or of the `lxml` library, the
corresponding definition carries a doc comment explaining what it models.
Python machine integers are arbitrary precision, so `Int` is the faithful
model; Python `float` scale factors only flow through the wrapper unchanged,
so they are modelled as `Rat`.
-/

namespace Aicspylibczi

/-- Rectangle of the native `_aicspylibczi.IntRect` pybind type
(fields `x`, `y`, `w`, `h`). -/
structure IntRect where
  x : Int
  y : Int
  w : Int
  h : Int
deriving DecidableEq

/-- The Python exceptions raised by `CziFile.py`:
`FileNotFoundError` (from `Path.resolve(strict=True)`), `IsADirectoryError`,
`TypeError` (unsupported source), the native
`PylibCZI_CDimCoordinatesOverspecifiedException`, `AssertionError` (from the
`assert` statement in `read_mosaic`), and `lxml.etree.XMLSyntaxError`. -/
inductive PyError where
  | fileNotFoundError (p : String)
  | isADirectoryError (p : String)
  | typeError (msg : String)
  | overspecified (msg : String)
  | assertionError
  | xmlSyntaxError
deriving DecidableEq

/-- The possible runtime types of the `czi_filename` argument of
`CziFile.__init__` / `CziFile.convert_to_buffer`: `str`, `pathlib.Path`,
`bytes`, `io.BytesIO`, `io.BufferedReader`, `numpy.ndarray`, or anything
else (`otherVal` records the type name used in the `TypeError` message). -/
inductive FileLike where
  | pathStr (p : String)
  | pathObj (p : String)
  | bytesVal (b : List Nat)
  | bytesBuffer (b : List Nat)
  | bufferedReader (handle : Nat)
  | ndarray (ident : Nat)
  | otherVal (typename : String)
deriving DecidableEq

/-- Result of `convert_to_buffer`: an open binary file handle, an in-memory
bytes buffer (`io.BytesIO`), an already-open stream, or a numpy array passed
through unchanged. -/
inductive Buffer where
  | fileHandle (p : String)
  | bytesBuffer (b : List Nat)
  | bufferedReader (handle : Nat)
  | ndarrayBuf (ident : Nat)
deriving DecidableEq

/-- Abstraction of the filesystem facts consulted by `convert_to_buffer`:
whether the (expanded, resolved) path exists and whether it is a directory.
A directory that exists satisfies `Path.resolve(strict=True)`. -/
structure PathFS where
  fileExists : String → Bool
  isDir : String → Bool

/-- Message of the `TypeError` raised by `convert_to_buffer`. -/
def typeErrMsg (typename : String) : String :=
  "Reader only accepts types: [str, pathlib.Path, bytes, io.BytesIO], received: " ++ typename

/-- Path branch of `convert_to_buffer`: `Path(file).expanduser().resolve(strict=True)`
raises `FileNotFoundError` when the path does not resolve; then `f.is_dir()`
leads to `raise IsADirectoryError(f)`; otherwise `open(f, "rb")`. -/
def convertPath (fs : PathFS) (p : String) : Except PyError Buffer :=
  if fs.fileExists p = false then .error (.fileNotFoundError p)
  else if fs.isDir p = true then .error (.isADirectoryError p)
  else .ok (.fileHandle p)

/-- `CziFile.convert_to_buffer` (static method): dispatch on the runtime type
of the argument exactly as the `isinstance` chain in the source does. -/
def convert_to_buffer (fs : PathFS) : FileLike → Except PyError Buffer
  | .pathStr p => convertPath fs p
  | .pathObj p => convertPath fs p
  | .bytesVal b => .ok (.bytesBuffer b)
  | .bytesBuffer b => .ok (.bytesBuffer b)
  | .bufferedReader handle => .ok (.bufferedReader handle)
  | .ndarray ident => .ok (.ndarrayBuf ident)
  | .otherVal typename => .error (.typeError (typeErrMsg typename))

/-- Shape of a numpy array returned by the native reader (the claims only
concern array shapes, so the pixel payload is not modelled). -/
structure Img where
  shape : List Nat
deriving DecidableEq

/-- A `_aicspylibczi.DimCoord` as the Python layer builds it: the sequence of
`set_dim(k, v)` calls performed on a freshly constructed `DimCoord`. -/
abbrev DimCoord : Type := List (String × Int)

/-- Model of the opaque native `_aicspylibczi.Reader` object: each method the
Python layer invokes is a parameter, so every theorem below holds for every
possible native reader. -/
structure Reader where
  isMosaicFlag : Bool
  mosaicBBoxNative : IntRect
  sceneRectNative : Int → IntRect
  metaStringNative : String
  subblockMetaNative : DimCoord → Int → List String
  selectedNative : DimCoord → Int → Img × List (String × Nat)

/-- `CziFile.ZISRAW_DIMS`, the fixed dimension alphabet (a Python `set`;
membership is all the source uses, so a list with `contains` is faithful). -/
def ZISRAW_DIMS : List String := ["Z", "C", "T", "R", "S", "I", "H", "V", "B"]

/-- The `DimCoord` built by
`[plane_constraints.set_dim(k, v) for (k, v) in kwargs.items() if k in CziFile.ZISRAW_DIMS]`. -/
def planeConstraints (kwargs : List (String × Int)) : DimCoord :=
  kwargs.filter (fun kv => ZISRAW_DIMS.contains kv.1)

/-- Message of the native overspecified-coordinates exception raised by
`_get_m_index_from_kwargs`. -/
def overspecMsg : String := "M Dimension is specified but the file is not a mosaic file!"

/-- `CziFile._get_m_index_from_kwargs`: `m_index = -1`; if `'M' in kwargs`
then raise the overspecified exception unless `is_mosaic()`, else
`m_index = kwargs.get('M')`. -/
def get_m_index_from_kwargs (isMosaic : Bool) (kwargs : List (String × Int)) :
    Except PyError Int :=
  if kwargs.any (fun kv => kv.1 == "M") then
    if isMosaic = false then .error (.overspecified overspecMsg)
    else .ok ((((kwargs.find? (fun kv => kv.1 == "M")).map Prod.snd)).getD (-1))
  else .ok (-1)

/-- `CziFile.read_image`: build the plane constraints from the kwargs, get
the m index (possibly raising), and return the native reader's selection. -/
def read_image (r : Reader) (kwargs : List (String × Int)) :
    Except PyError (Img × List (String × Nat)) :=
  let pc := planeConstraints kwargs
  match get_m_index_from_kwargs r.isMosaicFlag kwargs with
  | .error e => .error e
  | .ok m => .ok (r.selectedNative pc m)

/-- `CziFile.read_subblock_metadata`: same kwargs handling as `read_image`,
forwarding to `reader.read_meta_from_subblock`. -/
def read_subblock_metadata (r : Reader) (kwargs : List (String × Int)) :
    Except PyError (List String) :=
  let pc := planeConstraints kwargs
  match get_m_index_from_kwargs r.isMosaicFlag kwargs with
  | .error e => .error e
  | .ok m => .ok (r.subblockMetaNative pc m)

/-- `CziFile.read_mosaic_size`: if `not self.reader.is_mosaic()` return a
fresh `IntRect` with `x = y = 0`, `w = h = -1`; otherwise return
`reader.mosaic_shape()`. -/
def read_mosaic_size (r : Reader) : IntRect :=
  if r.isMosaicFlag = false then IntRect.mk 0 0 (-1) (-1) else r.mosaicBBoxNative

/-- Scaling of one spatial extent by the mosaic scale factor. -/
def scaleDim (n : Int) (sf : Rat) : Nat := (Rat.floor (sf * n)).toNat

/-- Modelled from the spec: the native `Reader.read_mosaic` method is not
under `src/` (it is part of the compiled extension).  Per the spec, the
destination rectangle defaults to the full mosaic bounding box (the Python
layer passes the sentinel `w = h = -1` for this), the output dimensions are
the native dimensions times the scale factor, and the output is a single
array of shape `(1, scaled_height, scaled_width)`. -/
def Reader.readMosaicNative (r : Reader) (_dc : DimCoord) (sf : Rat) (rect : IntRect) : Img :=
  let eff := if rect.w = -1 ∧ rect.h = -1 then r.mosaicBBoxNative else rect
  Img.mk [1, scaleDim eff.h sf, scaleDim eff.w sf]

/-- Default value of the `scale_factor` parameter in the signature of
`CziFile.read_mosaic` (`scale_factor: float = 0.1`). -/
def defaultScaleFactor : Rat := 1 / 10

/-- `CziFile.read_mosaic`, instrumented: the second component is the list of
calls made to the native `reader.read_mosaic`, so that the theorems can state
that a failing call performs no native call.  `region is None` builds a fresh
`IntRect` setting only `w = -1` and `h = -1` (the pybind struct default
initialises the coordinates to zero); otherwise `assert (len(region) == 4)`
and the region is unpacked positionally into `x`, `y`, `w`, `h`. -/
def read_mosaic (r : Reader) (region : Option (List Int)) (scale_factor : Rat)
    (kwargs : List (String × Int)) :
    Except PyError Img × List (DimCoord × Rat × IntRect) :=
  let pc := planeConstraints kwargs
  match region with
  | none =>
      let rect := IntRect.mk 0 0 (-1) (-1)
      (.ok (r.readMosaicNative pc scale_factor rect), [(pc, scale_factor, rect)])
  | some reg =>
      match reg with
      | [a, b, c, d] =>
          let rect := IntRect.mk a b c d
          (.ok (r.readMosaicNative pc scale_factor rect), [(pc, scale_factor, rect)])
      | _ => (.error .assertionError, [])

/-- `CziFile.scene_bounding_box`: `bbox = reader.read_scene_wh(index)`;
returns `(bbox.x, bbox.y, bbox.w, bbox.h)`.  The Python default argument is
`index = -1`, which the native layer treats as the first scene. -/
def scene_bounding_box (r : Reader) (index : Int) : Int × Int × Int × Int :=
  let bbox := r.sceneRectNative index
  (bbox.x, bbox.y, bbox.w, bbox.h)

/-- `CziFile.scene_height_by_width`: `box = reader.read_scene_wh(index)`;
returns `(box.h, box.w)`. -/
def scene_height_by_width (r : Reader) (index : Int) : Int × Int :=
  let box := r.sceneRectNative index
  (box.h, box.w)

/-- The fields of a constructed `CziFile` object that the claims concern. -/
structure CziFileObj where
  bytesBuf : Buffer
  metafileOut : String
  reader : Reader

/-- `CziFile.__init__`, instrumented: the second component counts the native
`Reader` constructions performed.  The source first runs
`self._bytes = self.convert_to_buffer(czi_filename)` and only afterwards
constructs `self.reader = self.czilib.Reader(self._bytes)`; a validation
error therefore propagates before any native resource is acquired. -/
def cziFileInit (fs : PathFS) (mkNativeReader : Buffer → Reader)
    (czi_filename : FileLike) (metafile_out : String) :
    Except PyError CziFileObj × Nat :=
  match convert_to_buffer fs czi_filename with
  | .error e => (.error e, 0)
  | .ok buf => (.ok (CziFileObj.mk buf metafile_out (mkNativeReader buf)), 1)

/-!
## XML model

`CziFile.meta` parses the metadata string with `lxml.etree.fromstring`,
caches the root element in `self.meta_root`, and (when `metafile_out` is
configured) serialises it with `lxml.etree.tostring(pretty_print=True)` to a
file.  The `lxml` library is outside the repository, so the document type,
the pretty-printing serialiser and the parser below are modelled after its
documented behaviour: elements have a tag, attributes, text and child
elements; the pretty printer puts every element on its own line, indented
two spaces per depth, leaving leaf text inline; the parser is a standard
recursive-descent XML reader.  The parser discards the whitespace the pretty
printer inserts between elements, which is exactly the "modulo
pretty-printing whitespace" clause of the round-trip property.
-/

mutual
/-- An XML element: tag, attributes, text content, and child elements
(mixed content is not modelled; the well-formedness predicate `wfXml`
requires text-bearing elements to be leaves, as in pretty-printed output). -/
inductive Xml where
  | elem (tag : String) (attrs : List (String × String)) (txt : String) (children : XmlList)

/-- A list of XML elements (mutual with `Xml` so that structural mutual
recursion and induction are available). -/
inductive XmlList where
  | nil
  | cons (hd : Xml) (tl : XmlList)
end

/-- Whether an `XmlList` is empty; `lxml`'s `len(element)` is the number of
child elements, so this drives the Python truthiness of an element. -/
def isNilB : XmlList → Bool
  | .nil => true
  | .cons _ _ => false

/-- Characters allowed in element and attribute names by the model. -/
def isNameChar (c : Char) : Bool := c.isAlpha || c.isDigit

/-- Whitespace characters (the pretty printer emits spaces and newlines; the
parser also tolerates tabs and carriage returns). -/
def isWsChar (c : Char) : Bool := c = ' ' || c = '\n' || c = '\t' || c = '\r'

/-- `n` spaces of indentation. -/
def indentChars (n : Nat) : List Char := List.replicate n ' '

/-- Serialise an attribute list: for each attribute a space, the name, `="`,
the value, `"`. -/
def renderAttrs : List (String × String) → List Char
  | [] => []
  | (k, v) :: rest => ' ' :: (k.data ++ '=' :: '"' :: (v.data ++ '"' :: renderAttrs rest))

/-- The closing tag `</tag>` of an element. -/
def prettyClose (tagd : List Char) : List Char := '<' :: '/' :: (tagd ++ ['>'])

/-- The serialisation of an element after its attributes: `/>` when the
element is an empty leaf, `>text</tag>` for a text leaf, and otherwise the
(already serialised) children between `>`, a newline and the indented
closing tag. -/
def prettyTail (ind : Nat) (tagd : List Char) (txt : String) (hasChildren : Bool)
    (childrenR : List Char) : List Char :=
  if hasChildren then '>' :: '\n' :: (childrenR ++ (indentChars ind ++ prettyClose tagd))
  else if txt = "" then ['/', '>']
  else '>' :: (txt.data ++ prettyClose tagd)

mutual
/-- Pretty-printed serialisation of one element, without the trailing
newline: `<tag attrs/>` when empty, `<tag attrs>text</tag>` for a text leaf,
otherwise the children each on their own line, indented two further spaces,
between `<tag attrs>` and `</tag>`. -/
def prettyXmlCore (ind : Nat) : Xml → List Char
  | .elem tag attrs txt children =>
    indentChars ind ++ '<' :: (tag.data ++ renderAttrs attrs ++
      prettyTail ind tag.data txt (!isNilB children) (prettyList (ind + 2) children))

/-- Pretty-printed serialisation of a list of sibling elements, each
followed by a newline. -/
def prettyList (ind : Nat) : XmlList → List Char
  | .nil => []
  | .cons x xs => (prettyXmlCore ind x ++ '\n' :: prettyList ind xs)
end

/-- Pretty-printed serialisation of a whole document (the root element
followed by a final newline), as `lxml.etree.tostring(root, pretty_print=True)`
produces it. -/
def prettyXml (ind : Nat) (t : Xml) : List Char := prettyXmlCore ind t ++ ['\n']

/-- The string written by `CziFile.meta` when `metafile_out` is set:
`etree.tostring(self.meta_root, pretty_print=True).decode('utf-8')`. -/
def tostring_pretty (t : Xml) : String := String.mk (prettyXml 0 t)

/-- After an attribute value (continuation `pa` parses the remaining
attributes): expect the closing quote, then the rest of the list. -/
def parseAttrVal (pa : List Char → Option (List (String × String) × List Char))
    (nm v : List Char) (cs : List Char) :
    Option (List (String × String) × List Char) :=
  match cs with
  | '"' :: cs4 =>
    match pa cs4 with
    | some (rest, cs5) => some ((String.mk nm, String.mk v) :: rest, cs5)
    | none => none
  | _ => none

/-- After an attribute name: expect `="`, then scan the value. -/
def parseAttrEq (pa : List Char → Option (List (String × String) × List Char))
    (nm : List Char) (cs2 : List Char) :
    Option (List (String × String) × List Char) :=
  match cs2 with
  | '=' :: '"' :: cs3 =>
      parseAttrVal pa nm (cs3.takeWhile (fun d => d != '"'))
        (cs3.dropWhile (fun d => d != '"'))
  | _ => none

/-- Attribute list with leading whitespace skipped: empty input fails, a
name character starts an attribute, anything else ends the list. -/
def parseAttrsCore (pa : List Char → Option (List (String × String) × List Char))
    (cs1 : List Char) : Option (List (String × String) × List Char) :=
  match cs1 with
  | [] => none
  | c :: _ =>
    if isNameChar c
    then parseAttrEq pa (cs1.takeWhile isNameChar) (cs1.dropWhile isNameChar)
    else some ([], cs1)

/-- Parse an attribute list (fuel-bounded): skip whitespace; a name
character starts one more `name="value"` attribute, anything else ends the
list. -/
def parseAttrs : Nat → List Char → Option (List (String × String) × List Char)
  | 0, _ => none
  | fuel + 1, cs => parseAttrsCore (parseAttrs fuel) (cs.dropWhile isWsChar)

/-- Whether the input starts with the two characters `</` of a closing
tag. -/
def isCloseAhead : List Char → Bool
  | a :: b :: _ => a == '<' && b == '/'
  | _ => false

/-- Consume a closing tag `</tag>` for the given tag characters. -/
def closeTag (tag : List Char) (cs : List Char) : Option (List Char) :=
  match cs with
  | '<' :: '/' :: cs1 =>
    if cs1.takeWhile isNameChar = tag then
      match cs1.dropWhile isNameChar with
      | '>' :: cs2 => some cs2
      | _ => none
    else none
  | _ => none

/-- Content of an element, after its `>` (continuation `pchildren` parses a
list of child elements).  The run of characters before the next `<` is
either all whitespace — then the content is a list of child elements (the
whitespace being exactly what pretty-printing inserts) — or the text of a
leaf. -/
def parseContent (pchildren : List Char → Option (XmlList × List Char))
    (tag : List Char) (attrs : List (String × String)) (cs3 : List Char) :
    Option (Xml × List Char) :=
  let raw := cs3.takeWhile (fun d => d != '<')
  let cs4 := cs3.dropWhile (fun d => d != '<')
  if raw.all isWsChar then
    match pchildren cs4 with
    | none => none
    | some (children, cs5) =>
      match closeTag tag cs5 with
      | some cs6 => some (.elem (String.mk tag) attrs "" children, cs6)
      | none => none
  else
    match closeTag tag cs4 with
    | some cs6 => some (.elem (String.mk tag) attrs (String.mk raw) .nil, cs6)
    | none => none

/-- After the attributes of `<tag attrs`: either `/>` closes an empty
element, or `>` opens the content. -/
def parseTagBody (pchildren : List Char → Option (XmlList × List Char))
    (tag : List Char) (attrs : List (String × String)) (cs2 : List Char) :
    Option (Xml × List Char) :=
  match cs2 with
  | '/' :: '>' :: cs3 => some (.elem (String.mk tag) attrs "" .nil, cs3)
  | '>' :: cs3 => parseContent pchildren tag attrs cs3
  | _ => none

mutual
/-- Parse one element (fuel-bounded recursive descent): skip whitespace,
expect `<`, a nonempty name, attributes, then hand over to `parseTagBody`
with the child-list continuation at the decremented fuel. -/
def parseElem : Nat → List Char → Option (Xml × List Char)
  | 0, _ => none
  | fuel + 1, cs =>
    match cs.dropWhile isWsChar with
    | '<' :: cs1 =>
      let tag := cs1.takeWhile isNameChar
      if tag = [] then none else
      match parseAttrs (fuel + 1) (cs1.dropWhile isNameChar) with
      | none => none
      | some (attrs, cs2) => parseTagBody (parseChildren fuel) tag attrs cs2
    | _ => none

/-- Parse sibling elements until a closing tag `</` is ahead. -/
def parseChildren : Nat → List Char → Option (XmlList × List Char)
  | 0, _ => none
  | fuel + 1, cs =>
    let cs1 := cs.dropWhile isWsChar
    if isCloseAhead cs1 then some (.nil, cs1)
    else
      match parseElem fuel cs1 with
      | none => none
      | some (x, cs2) =>
        match parseChildren fuel cs2 with
        | none => none
        | some (xs, cs3) => some (.cons x xs, cs3)
end

/-- Modelled from the spec: `lxml.etree.fromstring` — parse an XML document
from a string, raising `XMLSyntaxError` on malformed input.  The fuel
`s.length + 1` dominates the recursion depth needed for any document that
fits in `s`. -/
def fromstringModel (s : String) : Except PyError Xml :=
  match parseElem (s.length + 1) s.data with
  | some (root, rest) => if rest.all isWsChar then .ok root else .error .xmlSyntaxError
  | none => .error .xmlSyntaxError

/-- Well-formedness of one attribute: nonempty name of name characters, and
a value without a double quote. -/
def wfAttr (kv : String × String) : Bool :=
  !kv.1.data.isEmpty && kv.1.data.all isNameChar && kv.2.data.all (fun c => c != '"')

mutual
/-- Well-formedness of an element: nonempty alphanumeric tag, well-formed
attributes, text without `<` that is empty or not pure whitespace, no mixed
content (text forces a leaf), and well-formed children. -/
def wfXml : Xml → Bool
  | .elem tag attrs txt children =>
    !tag.data.isEmpty && tag.data.all isNameChar &&
    attrs.all wfAttr &&
    txt.data.all (fun c => c != '<') &&
    (txt.data.isEmpty || !txt.data.all isWsChar) &&
    (txt.data.isEmpty || isNilB children) &&
    wfList children

/-- Well-formedness of a list of elements. -/
def wfList : XmlList → Bool
  | .nil => true
  | .cons x xs => wfXml x && wfList xs
end

mutual
/-- Fuel bound for parsing one element. -/
def countXml : Xml → Nat
  | .elem _ attrs _ children => 1 + attrs.length + countList children

/-- Fuel bound for parsing a list of sibling elements. -/
def countList : XmlList → Nat
  | .nil => 1
  | .cons x xs => 1 + countXml x + countList xs
end

/-!
## The `meta` property
-/

/-- The mutable state that the `meta` property touches: the cached
`self.meta_root`, an instrumentation counter of how many times the metadata
block was read and parsed (`reader.read_meta()` + `etree.fromstring`), and
the files written so far (latest write first). -/
structure MetaCtx where
  metaRoot : Option Xml
  parses : Nat
  fileWrites : List (String × String)

/-- Python truthiness of `self.meta_root` as tested by
`if not self.meta_root:`: `None` is falsy, and an `lxml` element is truthy
exactly when it has child elements (element truth value is based on
`len(element)`, the number of children). -/
def pyElemTruthy : Option Xml → Bool
  | none => false
  | some (.elem _ _ _ children) => !isNilB children

/-- The parse-and-cache phase of `CziFile.meta`: `if not self.meta_root:`
read the metadata string from the native reader and parse it, storing the
root and counting the parse. -/
def metaParsePhase (r : Reader) (st : MetaCtx) : Except PyError MetaCtx :=
  if pyElemTruthy st.metaRoot then .ok st
  else match fromstringModel r.metaStringNative with
       | .error e => .error e
       | .ok root => .ok (MetaCtx.mk (some root) (st.parses + 1) st.fileWrites)

/-- The export phase of `CziFile.meta`: `if self.metafile_out:` serialise
the cached root pretty-printed and write it to that path. -/
def metaWrite (metafileOut : String) (root : Xml) (st1 : MetaCtx) : Xml × MetaCtx :=
  if metafileOut = "" then (root, st1)
  else (root, MetaCtx.mk st1.metaRoot st1.parses
    ((metafileOut, tostring_pretty root) :: st1.fileWrites))

/-- `CziFile.meta` (property): if `not self.meta_root`, read the metadata
string from the native reader and parse it, storing the root; then, if
`self.metafile_out` is truthy (a nonempty path), serialise the root
pretty-printed and write it to that path; finally return the root. -/
def metaAccess (r : Reader) (metafileOut : String) (st : MetaCtx) :
    Except PyError (Xml × MetaCtx) :=
  match metaParsePhase r st with
  | .error e => .error e
  | .ok st1 =>
    match st1.metaRoot with
    | none => .error .xmlSyntaxError
    | some root => .ok (metaWrite metafileOut root st1)

/-!
## Auxiliary predicates and sample values

`headStop p cs` says the next character of `cs` (which must exist) fails
`p`; it is how the takeWhile/dropWhile reasoning below records where a
scanned run stops.  `startsCloseB cs` says that after whitespace `cs` is
positioned at a closing tag.  The sample values are concrete instantiations
used by the witness theorems.
-/

/-- The next element exists and fails `p`. -/
def headStop {α : Type} (p : α → Bool) : List α → Prop
  | [] => False
  | c :: _ => p c = false

/-- After skipping whitespace, the input is positioned at a `</` closing
tag. -/
def startsCloseB (cs : List Char) : Bool := isCloseAhead (cs.dropWhile isWsChar)

/-- A sample scene rectangle. -/
def sampleRect : IntRect := IntRect.mk 3 4 20 10

/-- A sample non-mosaic native reader with concrete responses. -/
def sampleNonMosaicReader : Reader :=
  Reader.mk false (IntRect.mk 0 0 (-1) (-1)) (fun _ => sampleRect) "<A><B/></A>"
    (fun dc _ => [String.mk (List.replicate dc.length 'x')])
    (fun dc _ => (Img.mk [1, dc.length], [("Y", 1)]))

/-- A sample mosaic native reader with concrete responses. -/
def sampleMosaicReader : Reader :=
  Reader.mk true (IntRect.mk 0 0 2000 1000) (fun _ => sampleRect) "<A><B/></A>"
    (fun dc _ => [String.mk (List.replicate dc.length 'x')])
    (fun dc _ => (Img.mk [1, dc.length], [("Y", 1)]))

/-- A sample reader whose metadata document has a childless root element:
the failing input of the metadata-caching claim. -/
def sampleEmptyMetaReader : Reader :=
  Reader.mk false (IntRect.mk 0 0 (-1) (-1)) (fun _ => sampleRect) "<A/>"
    (fun _ _ => []) (fun _ _ => (Img.mk [1], []))

/-- A sample filesystem: `somedir` exists and is a directory; `file.czi`
exists and is a regular file; nothing else exists. -/
def sampleFS : PathFS :=
  PathFS.mk (fun p => p == "somedir" || p == "file.czi") (fun p => p == "somedir")

/-- A sample native reader constructor for the `__init__` model. -/
def mkSampleReader : Buffer → Reader := fun _ => sampleNonMosaicReader

/-- The parsed root element of `"<A><B/></A>"`, used by witnesses. -/
def sampleRoot : Xml :=
  Xml.elem "A" [] "" (XmlList.cons (Xml.elem "B" [] "" XmlList.nil) XmlList.nil)

/-- An initial metadata state: nothing cached, nothing parsed, nothing
written. -/
def initialMetaCtx : MetaCtx := MetaCtx.mk none 0 []

/-- The parsed root of `"<A/>"`: a root element with no children. -/
def emptyRoot : Xml := Xml.elem "A" [] "" XmlList.nil

/-!
## Helper lemmas
-/

theorem mkData : ∀ s : String, String.mk s.data = s
  | ⟨_⟩ => rfl

theorem takeWhile_append_all {α : Type} (p : α → Bool) :
    ∀ (l r : List α), l.all p = true → (l ++ r).takeWhile p = l ++ r.takeWhile p := by
  intro l r h
  induction l with
  | nil => rfl
  | cons a l ih =>
    simp only [List.all_cons, Bool.and_eq_true] at h
    simp [List.takeWhile_cons, h.1, ih h.2]

theorem dropWhile_append_all {α : Type} (p : α → Bool) :
    ∀ (l r : List α), l.all p = true → (l ++ r).dropWhile p = r.dropWhile p := by
  intro l r h
  induction l with
  | nil => rfl
  | cons a l ih =>
    simp only [List.all_cons, Bool.and_eq_true] at h
    simp [List.dropWhile_cons, h.1, ih h.2]

theorem takeWhile_headStop {α : Type} (p : α → Bool) :
    ∀ (r : List α), headStop p r → r.takeWhile p = [] := by
  intro r h
  cases r with
  | nil => rfl
  | cons c r => simp_all [headStop, List.takeWhile_cons]

theorem dropWhile_headStop {α : Type} (p : α → Bool) :
    ∀ (r : List α), headStop p r → r.dropWhile p = r := by
  intro r h
  cases r with
  | nil => rfl
  | cons c r => simp_all [headStop, List.dropWhile_cons]

theorem takeWhile_append_stop {α : Type} (p : α → Bool) (l r : List α)
    (hl : l.all p = true) (hr : headStop p r) :
    (l ++ r).takeWhile p = l := by
  rw [takeWhile_append_all p l r hl, takeWhile_headStop p r hr, List.append_nil]

theorem dropWhile_append_stop {α : Type} (p : α → Bool) (l r : List α)
    (hl : l.all p = true) (hr : headStop p r) :
    (l ++ r).dropWhile p = r := by
  rw [dropWhile_append_all p l r hl, dropWhile_headStop p r hr]

theorem dropWhile_idem {α : Type} (p : α → Bool) :
    ∀ (l : List α), (l.dropWhile p).dropWhile p = l.dropWhile p := by
  intro l
  induction l with
  | nil => rfl
  | cons a l ih =>
    by_cases h : p a = true
    · simp [List.dropWhile_cons, h, ih]
    · simp only [Bool.not_eq_true] at h
      simp [List.dropWhile_cons, h]

theorem indent_all_ws (n : Nat) : (indentChars n).all isWsChar = true := by
  induction n with
  | zero => rfl
  | succ n ih => simp [indentChars, List.replicate_succ, isWsChar, ih]

theorem indent_all_ne_lt (n : Nat) : (indentChars n).all (fun c => c != '<') = true := by
  induction n with
  | zero => rfl
  | succ n ih => simp [indentChars, List.replicate_succ, ih]

theorem ws_not_nameChar {c : Char} (h : isWsChar c = true) : isNameChar c = false := by
  simp only [isWsChar, Bool.or_eq_true, decide_eq_true_eq] at h
  rcases h with ((h | h) | h) | h <;> subst h <;> decide

theorem nameChar_not_ws {c : Char} (h : isNameChar c = true) : isWsChar c = false := by
  cases hw : isWsChar c with
  | false => rfl
  | true => rw [ws_not_nameChar hw] at h; exact absurd h (by simp)

theorem headStop_cons {α : Type} (p : α → Bool) (c : α) (cs : List α) (h : p c = false) :
    headStop p (c :: cs) := h

theorem headStop_not_nil {α : Type} {p : α → Bool} (h : headStop p ([] : List α)) : False := h

theorem parseElem_dropWs (fuel : Nat) (cs : List Char) :
    parseElem fuel (cs.dropWhile isWsChar) = parseElem fuel cs := by
  cases fuel with
  | zero => rfl
  | succ f => simp only [parseElem, dropWhile_idem]

theorem parseChildren_dropWs (fuel : Nat) (cs : List Char) :
    parseChildren fuel (cs.dropWhile isWsChar) = parseChildren fuel cs := by
  cases fuel with
  | zero => rfl
  | succ f => simp only [parseChildren, dropWhile_idem]

theorem closeTag_step (tag cs1 : List Char) :
    closeTag tag ('<' :: '/' :: cs1) =
      if cs1.takeWhile isNameChar = tag then
        (match cs1.dropWhile isNameChar with
         | '>' :: cs2 => some cs2
         | _ => none)
      else none := rfl

theorem closeTag_render (tagc : List Char) (r : List Char)
    (hall : tagc.all isNameChar = true) :
    closeTag tagc ('<' :: '/' :: (tagc ++ '>' :: r)) = some r := by
  rw [closeTag_step,
    takeWhile_append_stop isNameChar tagc _ hall (headStop_cons _ _ _ (by decide)),
    if_pos rfl,
    dropWhile_append_stop isNameChar tagc _ hall (headStop_cons _ _ _ (by decide))]
  rfl

theorem headStop_renderAttrs_name (attrs : List (String × String)) (cs : List Char)
    (h : headStop isNameChar cs) :
    headStop isNameChar (renderAttrs attrs ++ cs) := by
  cases attrs with
  | nil => exact h
  | cons a rest => exact headStop_cons _ _ _ (by decide)

theorem parseAttrs_succ (f : Nat) (cs : List Char) :
    parseAttrs (f + 1) cs = parseAttrsCore (parseAttrs f) (cs.dropWhile isWsChar) := rfl

theorem parseAttrsCore_cons
    (pa : List Char → Option (List (String × String) × List Char))
    (c : Char) (rest : List Char) :
    parseAttrsCore pa (c :: rest) =
      if isNameChar c
      then parseAttrEq pa ((c :: rest).takeWhile isNameChar)
        ((c :: rest).dropWhile isNameChar)
      else some ([], c :: rest) := rfl

theorem parseAttrEq_step
    (pa : List Char → Option (List (String × String) × List Char))
    (nm cs3 : List Char) :
    parseAttrEq pa nm ('=' :: '"' :: cs3) =
      parseAttrVal pa nm (cs3.takeWhile (fun d => d != '"'))
        (cs3.dropWhile (fun d => d != '"')) := rfl

theorem parseAttrVal_step
    (pa : List Char → Option (List (String × String) × List Char))
    (nm v cs4 : List Char) :
    parseAttrVal pa nm v ('"' :: cs4) =
      (match pa cs4 with
       | some (rest, cs5) => some ((String.mk nm, String.mk v) :: rest, cs5)
       | none => none) := rfl

theorem parseAttrs_render :
    ∀ (attrs : List (String × String)) (fuel : Nat) (cs : List Char),
    attrs.all wfAttr = true → attrs.length < fuel →
    headStop isWsChar cs → headStop isNameChar cs →
    parseAttrs fuel (renderAttrs attrs ++ cs) = some (attrs, cs) := by
  intro attrs
  induction attrs with
  | nil =>
    intro fuel cs _ hf hws hname
    cases fuel with
    | zero => omega
    | succ f =>
      cases cs with
      | nil => exact absurd hws headStop_not_nil
      | cons c cr =>
        have hws' : isWsChar c = false := hws
        have hname' : isNameChar c = false := hname
        rw [renderAttrs, List.nil_append, parseAttrs_succ, List.dropWhile_cons]
        rw [hws']
        rw [if_neg (by simp), parseAttrsCore_cons, hname']
        rw [if_neg (by simp)]
  | cons kv rest ih =>
    intro fuel cs hall hf hws hname
    obtain ⟨k, v⟩ := kv
    obtain ⟨kd⟩ := k
    obtain ⟨vd⟩ := v
    simp only [List.all_cons, Bool.and_eq_true, wfAttr] at hall
    obtain ⟨⟨⟨hk1, hk2⟩, hv⟩, hrest⟩ := hall
    cases fuel with
    | zero => omega
    | succ f =>
      cases hkd : kd with
      | nil => simp [hkd] at hk1
      | cons kc kt =>
        subst hkd
        have hkc : isNameChar kc = true := by
          simp only [List.all_cons, Bool.and_eq_true] at hk2
          exact hk2.1
        show parseAttrs (f + 1)
          ((' ' :: ((kc :: kt) ++ '=' :: '"' :: (vd ++ '"' :: renderAttrs rest))) ++ cs) =
          some ((String.mk (kc :: kt), String.mk vd) :: rest, cs)
        have hY : (('=' :: '"' :: (vd ++ '"' :: renderAttrs rest)) ++ cs) =
            ('=' :: '"' :: (vd ++ '"' :: (renderAttrs rest ++ cs))) := by
          simp [List.cons_append, List.append_assoc]
        rw [List.cons_append, List.append_assoc, hY]
        rw [parseAttrs_succ, List.dropWhile_cons,
          show isWsChar ' ' = true from by decide, if_pos rfl]
        rw [List.cons_append, List.dropWhile_cons, nameChar_not_ws hkc,
          if_neg (by simp)]
        rw [parseAttrsCore_cons, hkc, if_pos rfl]
        rw [← List.cons_append,
          takeWhile_append_stop isNameChar (kc :: kt) _ hk2
            (headStop_cons _ _ _ (by decide)),
          dropWhile_append_stop isNameChar (kc :: kt) _ hk2
            (headStop_cons _ _ _ (by decide))]
        rw [parseAttrEq_step,
          takeWhile_append_stop (fun d => d != '"') vd _ hv
            (headStop_cons _ _ _ (by decide)),
          dropWhile_append_stop (fun d => d != '"') vd _ hv
            (headStop_cons _ _ _ (by decide))]
        rw [parseAttrVal_step, ih f cs hrest
          (by simp only [List.length_cons] at hf; omega) hws hname]


theorem mk_cons_ne_empty (c : Char) (cs : List Char) : String.mk (c :: cs) ≠ "" :=
  fun h => nomatch congrArg String.data h

theorem isCloseAhead_close (r : List Char) : isCloseAhead ('<' :: '/' :: r) = true := rfl

theorem isCloseAhead_open (c : Char) (r : List Char) (hc : isNameChar c = true) :
    isCloseAhead ('<' :: c :: r) = false := by
  simp only [isCloseAhead]
  cases hcc : c == '/' with
  | false => simp
  | true =>
    rw [beq_iff_eq] at hcc
    subst hcc
    exact absurd hc (by decide)

theorem parseElem_succ_lt (f : Nat) (cs cs1 : List Char)
    (h : cs.dropWhile isWsChar = '<' :: cs1) :
    parseElem (f + 1) cs =
      (if cs1.takeWhile isNameChar = [] then none else
       match parseAttrs (f + 1) (cs1.dropWhile isNameChar) with
       | none => none
       | some (attrs, cs2) =>
           parseTagBody (parseChildren f) (cs1.takeWhile isNameChar) attrs cs2) := by
  simp only [parseElem]
  rw [h]
  rfl

theorem parseTagBody_selfclose (pc : List Char → Option (XmlList × List Char))
    (tag : List Char) (attrs : List (String × String)) (cs3 : List Char) :
    parseTagBody pc tag attrs ('/' :: '>' :: cs3) =
      some (.elem (String.mk tag) attrs "" .nil, cs3) := rfl

theorem parseTagBody_open (pc : List Char → Option (XmlList × List Char))
    (tag : List Char) (attrs : List (String × String)) (cs3 : List Char) :
    parseTagBody pc tag attrs ('>' :: cs3) = parseContent pc tag attrs cs3 := rfl

theorem parseContent_text (pc : List Char → Option (XmlList × List Char))
    (tag : List Char) (attrs : List (String × String)) (cs3 : List Char)
    (hws : ((cs3.takeWhile (fun d => d != '<')).all isWsChar) = false) :
    parseContent pc tag attrs cs3 =
      (match closeTag tag (cs3.dropWhile (fun d => d != '<')) with
       | some cs6 =>
           some (.elem (String.mk tag) attrs
             (String.mk (cs3.takeWhile (fun d => d != '<'))) .nil, cs6)
       | none => none) := by
  simp only [parseContent, hws, Bool.false_eq_true, if_false]

theorem parseContent_children (pc : List Char → Option (XmlList × List Char))
    (tag : List Char) (attrs : List (String × String)) (cs3 : List Char)
    (hws : ((cs3.takeWhile (fun d => d != '<')).all isWsChar) = true) :
    parseContent pc tag attrs cs3 =
      (match pc (cs3.dropWhile (fun d => d != '<')) with
       | none => none
       | some (children, cs5) =>
         match closeTag tag cs5 with
         | some cs6 => some (.elem (String.mk tag) attrs "" children, cs6)
         | none => none) := by
  simp only [parseContent, hws, if_true]

theorem parseChildren_succ_close (f : Nat) (cs : List Char)
    (h : isCloseAhead (cs.dropWhile isWsChar) = true) :
    parseChildren (f + 1) cs = some (.nil, cs.dropWhile isWsChar) := by
  simp only [parseChildren, h, if_true]

theorem parseChildren_succ_open (f : Nat) (cs : List Char)
    (h : isCloseAhead (cs.dropWhile isWsChar) = false) :
    parseChildren (f + 1) cs =
      (match parseElem f (cs.dropWhile isWsChar) with
       | none => none
       | some (x, cs2) =>
         match parseChildren f cs2 with
         | none => none
         | some (xs, cs3) => some (.cons x xs, cs3)) := by
  simp only [parseChildren, h, Bool.false_eq_true, if_false]

theorem prettyXmlCore_shape (ind : Nat) (t : Xml) (hw : wfXml t = true) :
    ∃ (tc : Char) (body : List Char),
      prettyXmlCore ind t = indentChars ind ++ '<' :: tc :: body ∧
      isNameChar tc = true := by
  obtain ⟨tag, attrs, txt, children⟩ := t
  obtain ⟨tagd⟩ := tag
  simp only [wfXml, Bool.and_eq_true] at hw
  obtain ⟨⟨⟨⟨⟨⟨htag1, htag2⟩, _⟩, _⟩, _⟩, _⟩, _⟩ := hw
  cases htd : tagd with
  | nil => rw [htd] at htag1; exact absurd htag1 (by simp)
  | cons tc tt =>
    subst htd
    simp only [List.all_cons, Bool.and_eq_true] at htag2
    refine ⟨tc, tt ++ (renderAttrs attrs ++
      prettyTail ind (tc :: tt) txt (!isNilB children)
        (prettyList (ind + 2) children)), ?_, htag2.1⟩
    simp [prettyXmlCore, List.cons_append, List.append_assoc]

theorem countXml_pos (t : Xml) : 1 ≤ countXml t := by
  obtain ⟨tag, attrs, txt, children⟩ := t
  simp [countXml]
  omega

theorem countList_pos (l : XmlList) : 1 ≤ countList l := by
  cases l with
  | nil => simp [countList]
  | cons x xs => simp [countList]; omega

theorem parseElem_step (f : Nat) (cs cs1 tagc : List Char)
    (attrs : List (String × String)) (cs2 : List Char)
    (h : cs.dropWhile isWsChar = '<' :: cs1)
    (htag : cs1.takeWhile isNameChar = tagc)
    (hne : tagc ≠ [])
    (hpa : parseAttrs (f + 1) (cs1.dropWhile isNameChar) = some (attrs, cs2)) :
    parseElem (f + 1) cs = parseTagBody (parseChildren f) tagc attrs cs2 := by
  rw [parseElem_succ_lt f cs cs1 h, htag, if_neg hne, hpa]

theorem parseChildren_step_cons (f : Nat) (cs : List Char) (x : Xml)
    (cs2 : List Char) (xs : XmlList) (cs3 : List Char)
    (h : isCloseAhead (cs.dropWhile isWsChar) = false)
    (he : parseElem f (cs.dropWhile isWsChar) = some (x, cs2))
    (hcs : parseChildren f cs2 = some (xs, cs3)) :
    parseChildren (f + 1) cs = some (.cons x xs, cs3) := by
  simp only [parseChildren_succ_open f cs h, he, hcs]

theorem parseContent_step_children (pc : List Char → Option (XmlList × List Char))
    (tag : List Char) (attrs : List (String × String)) (cs3 : List Char)
    (children : XmlList) (cs5 cs6 : List Char)
    (hws : ((cs3.takeWhile (fun d => d != '<')).all isWsChar) = true)
    (hp : pc (cs3.dropWhile (fun d => d != '<')) = some (children, cs5))
    (hct : closeTag tag cs5 = some cs6) :
    parseContent pc tag attrs cs3 =
      some (.elem (String.mk tag) attrs "" children, cs6) := by
  simp only [parseContent_children pc tag attrs cs3 hws, hp, hct]

theorem parseContent_step_text (pc : List Char → Option (XmlList × List Char))
    (tag : List Char) (attrs : List (String × String)) (cs3 cs6 : List Char)
    (hws : ((cs3.takeWhile (fun d => d != '<')).all isWsChar) = false)
    (hct : closeTag tag (cs3.dropWhile (fun d => d != '<')) = some cs6) :
    parseContent pc tag attrs cs3 =
      some (.elem (String.mk tag) attrs
        (String.mk (cs3.takeWhile (fun d => d != '<'))) .nil, cs6) := by
  rw [parseContent_text pc tag attrs cs3 hws, hct]

theorem prettyTail_head (ind : Nat) (tagd : List Char) (txt : String) (b : Bool)
    (cr : List Char) :
    ∃ z, (prettyTail ind tagd txt b cr = '/' :: z ∨ prettyTail ind tagd txt b cr = '>' :: z) := by
  cases b with
  | true => exact ⟨'\n' :: (cr ++ (indentChars ind ++ prettyClose tagd)), Or.inr rfl⟩
  | false =>
    by_cases ht : txt = ""
    · refine ⟨['>'], Or.inl ?_⟩
      simp [prettyTail, ht]
    · refine ⟨txt.data ++ prettyClose tagd, Or.inr ?_⟩
      simp [prettyTail, ht]

theorem dropWhile_ws_nl (z : List Char) :
    List.dropWhile isWsChar ('\n' :: z) = List.dropWhile isWsChar z := by
  rw [List.dropWhile_cons, show isWsChar '\n' = true from by decide, if_pos rfl]

theorem parse_pretty (fuel : Nat) :
    (∀ (t : Xml) (ind : Nat) (rest : List Char), wfXml t = true → countXml t ≤ fuel →
      parseElem fuel (prettyXmlCore ind t ++ rest) = some (t, rest)) ∧
    (∀ (l : XmlList) (ind : Nat) (rest : List Char), wfList l = true → countList l ≤ fuel →
      startsCloseB rest = true →
      parseChildren fuel (prettyList ind l ++ rest) = some (l, rest.dropWhile isWsChar)) := by
  induction fuel using Nat.strong_induction_on with
  | _ fuel ih =>
  constructor
  · intro t ind rest hw hcount
    cases fuel with
    | zero => exact absurd hcount (by have := countXml_pos t; omega)
    | succ f =>
      obtain ⟨tag, attrs, txt, children⟩ := t
      obtain ⟨tagd⟩ := tag
      obtain ⟨txtd⟩ := txt
      simp only [wfXml, Bool.and_eq_true] at hw
      obtain ⟨⟨⟨⟨⟨⟨htag1, htag2⟩, hattrs⟩, htxt1⟩, htxt2⟩, htxt3⟩, hch⟩ := hw
      simp only [countXml] at hcount
      cases htd : tagd with
      | nil => rw [htd] at htag1; exact absurd htag1 (by simp)
      | cons tc tt =>
      subst htd
      obtain ⟨z, hz⟩ := prettyTail_head ind (tc :: tt) (String.mk txtd)
        (!isNilB children) (prettyList (ind + 2) children)
      have hname1 : headStop isNameChar
          (prettyTail ind (tc :: tt) (String.mk txtd) (!isNilB children)
            (prettyList (ind + 2) children) ++ rest) := by
        rcases hz with hz | hz <;> rw [hz] <;> exact headStop_cons _ _ _ (by decide)
      have hws1 : headStop isWsChar
          (prettyTail ind (tc :: tt) (String.mk txtd) (!isNilB children)
            (prettyList (ind + 2) children) ++ rest) := by
        rcases hz with hz | hz <;> rw [hz] <;> exact headStop_cons _ _ _ (by decide)
      have hsn : headStop isNameChar (renderAttrs attrs ++
          (prettyTail ind (tc :: tt) (String.mk txtd) (!isNilB children)
            (prettyList (ind + 2) children) ++ rest)) :=
        headStop_renderAttrs_name attrs _ hname1
      have e0 : prettyXmlCore ind (Xml.elem ⟨tc :: tt⟩ attrs ⟨txtd⟩ children) ++ rest =
          indentChars ind ++ ('<' :: ((tc :: tt) ++ (renderAttrs attrs ++
            (prettyTail ind (tc :: tt) (String.mk txtd) (!isNilB children)
              (prettyList (ind + 2) children) ++ rest)))) := by
        simp [prettyXmlCore, List.cons_append, List.append_assoc]
      have hdw : (prettyXmlCore ind (Xml.elem ⟨tc :: tt⟩ attrs ⟨txtd⟩ children) ++
          rest).dropWhile isWsChar =
          '<' :: ((tc :: tt) ++ (renderAttrs attrs ++
            (prettyTail ind (tc :: tt) (String.mk txtd) (!isNilB children)
              (prettyList (ind + 2) children) ++ rest))) := by
        rw [e0]
        exact dropWhile_append_stop _ _ _ (indent_all_ws ind) (headStop_cons _ _ _ (by decide))
      have htake : List.takeWhile isNameChar ((tc :: tt) ++ (renderAttrs attrs ++
          (prettyTail ind (tc :: tt) (String.mk txtd) (!isNilB children)
            (prettyList (ind + 2) children) ++ rest))) = tc :: tt :=
        takeWhile_append_stop isNameChar (tc :: tt) _ htag2 hsn
      have hdr : List.dropWhile isNameChar ((tc :: tt) ++ (renderAttrs attrs ++
          (prettyTail ind (tc :: tt) (String.mk txtd) (!isNilB children)
            (prettyList (ind + 2) children) ++ rest))) =
          renderAttrs attrs ++
            (prettyTail ind (tc :: tt) (String.mk txtd) (!isNilB children)
              (prettyList (ind + 2) children) ++ rest) :=
        dropWhile_append_stop isNameChar (tc :: tt) _ htag2 hsn
      have hpa : parseAttrs (f + 1) (List.dropWhile isNameChar ((tc :: tt) ++
          (renderAttrs attrs ++
            (prettyTail ind (tc :: tt) (String.mk txtd) (!isNilB children)
              (prettyList (ind + 2) children) ++ rest)))) =
          some (attrs, prettyTail ind (tc :: tt) (String.mk txtd) (!isNilB children)
            (prettyList (ind + 2) children) ++ rest) := by
        rw [hdr]
        exact parseAttrs_render attrs (f + 1) _ hattrs
          (by have := countList_pos children; omega) hws1 hname1
      rw [parseElem_step f _ _ _ attrs _ hdw htake (by simp) hpa]
      cases children with
      | nil =>
        cases htxtd : txtd with
        | nil =>
          subst htxtd
          have hT : prettyTail ind (tc :: tt) (String.mk []) (!isNilB XmlList.nil)
              (prettyList (ind + 2) XmlList.nil) = ['/', '>'] := by
            simp [prettyTail, isNilB]
          rw [hT]
          exact parseTagBody_selfclose (parseChildren f) (tc :: tt) attrs rest
        | cons c0 cr =>
          subst htxtd
          have hT : prettyTail ind (tc :: tt) (String.mk (c0 :: cr)) (!isNilB XmlList.nil)
              (prettyList (ind + 2) XmlList.nil) =
              '>' :: ((c0 :: cr) ++ prettyClose (tc :: tt)) := by
            simp [prettyTail, isNilB, mk_cons_ne_empty c0 cr]
          have hcl : prettyClose (tc :: tt) ++ rest = '<' :: '/' :: ((tc :: tt) ++ '>' :: rest) := by
            simp [prettyClose, List.cons_append, List.append_assoc]
          have htake2 : List.takeWhile (fun d => d != '<')
              ((c0 :: cr) ++ ('<' :: '/' :: ((tc :: tt) ++ '>' :: rest))) = c0 :: cr :=
            takeWhile_append_stop _ _ _ htxt1 (headStop_cons _ _ _ (by decide))
          have hdrop2 : List.dropWhile (fun d => d != '<')
              ((c0 :: cr) ++ ('<' :: '/' :: ((tc :: tt) ++ '>' :: rest))) =
              '<' :: '/' :: ((tc :: tt) ++ '>' :: rest) :=
            dropWhile_append_stop _ _ _ htxt1 (headStop_cons _ _ _ (by decide))
          have hallws : (c0 :: cr).all isWsChar = false := by
            simp only [List.isEmpty_cons, Bool.false_or, Bool.not_eq_true'] at htxt2
            exact htxt2
          have hws2 : (List.takeWhile (fun d => d != '<')
              ((c0 :: cr) ++ ('<' :: '/' :: ((tc :: tt) ++ '>' :: rest)))).all isWsChar = false := by
            rw [htake2]; exact hallws
          have hct2 : closeTag (tc :: tt) (List.dropWhile (fun d => d != '<')
              ((c0 :: cr) ++ ('<' :: '/' :: ((tc :: tt) ++ '>' :: rest)))) = some rest := by
            rw [hdrop2]; exact closeTag_render (tc :: tt) rest htag2
          rw [hT, List.cons_append, parseTagBody_open, List.append_assoc, hcl]
          rw [parseContent_step_text (parseChildren f) (tc :: tt) attrs _ rest hws2 hct2,
            htake2]
      | cons x xs =>
        have htxtd : txtd = [] := by
          simp only [isNilB, Bool.or_false, List.isEmpty_iff] at htxt3
          exact htxt3
        subst htxtd
        simp only [wfList, Bool.and_eq_true] at hch
        obtain ⟨hwx, hwxs⟩ := hch
        obtain ⟨tcx, bodyx, hshape, htcx⟩ := prettyXmlCore_shape (ind + 2) x hwx
        have hT : prettyTail ind (tc :: tt) (String.mk []) (!isNilB (XmlList.cons x xs))
            (prettyList (ind + 2) (XmlList.cons x xs)) =
            '>' :: '\n' :: (prettyList (ind + 2) (XmlList.cons x xs) ++
              (indentChars ind ++ prettyClose (tc :: tt))) := by
          simp [prettyTail, isNilB]
        have hcl : prettyClose (tc :: tt) ++ rest = '<' :: '/' :: ((tc :: tt) ++ '>' :: rest) := by
          simp [prettyClose, List.cons_append, List.append_assoc]
        have hPL : prettyList (ind + 2) (XmlList.cons x xs) ++
            (indentChars ind ++ ('<' :: '/' :: ((tc :: tt) ++ '>' :: rest))) =
            indentChars (ind + 2) ++ ('<' :: (tcx :: (bodyx ++ ('\n' ::
              (prettyList (ind + 2) xs ++
                (indentChars ind ++ ('<' :: '/' :: ((tc :: tt) ++ '>' :: rest)))))))) := by
          simp [prettyList, hshape, List.cons_append, List.append_assoc]
        have hdwR : (indentChars ind ++ ('<' :: '/' :: ((tc :: tt) ++ '>' :: rest))).dropWhile
            isWsChar = '<' :: '/' :: ((tc :: tt) ++ '>' :: rest) :=
          dropWhile_append_stop _ _ _ (indent_all_ws ind) (headStop_cons _ _ _ (by decide))
        have hallne : ('\n' :: indentChars (ind + 2)).all (fun d => d != '<') = true := by
          simp [indent_all_ne_lt]
        have hallws2 : ('\n' :: indentChars (ind + 2)).all isWsChar = true := by
          simp [indent_all_ws, isWsChar]
        have hcs3 : '\n' :: (prettyList (ind + 2) (XmlList.cons x xs) ++
            (indentChars ind ++ ('<' :: '/' :: ((tc :: tt) ++ '>' :: rest)))) =
            ('\n' :: indentChars (ind + 2)) ++ ('<' :: (tcx :: (bodyx ++ ('\n' ::
              (prettyList (ind + 2) xs ++
                (indentChars ind ++ ('<' :: '/' :: ((tc :: tt) ++ '>' :: rest)))))))) := by
          rw [hPL]; rfl
        have htake3 : List.takeWhile (fun d => d != '<') ('\n' ::
            (prettyList (ind + 2) (XmlList.cons x xs) ++
              (indentChars ind ++ ('<' :: '/' :: ((tc :: tt) ++ '>' :: rest))))) =
            '\n' :: indentChars (ind + 2) := by
          rw [hcs3]
          exact takeWhile_append_stop _ _ _ hallne (headStop_cons _ _ _ (by decide))
        have hdrop3 : List.dropWhile (fun d => d != '<') ('\n' ::
            (prettyList (ind + 2) (XmlList.cons x xs) ++
              (indentChars ind ++ ('<' :: '/' :: ((tc :: tt) ++ '>' :: rest))))) =
            '<' :: (tcx :: (bodyx ++ ('\n' :: (prettyList (ind + 2) xs ++
              (indentChars ind ++ ('<' :: '/' :: ((tc :: tt) ++ '>' :: rest))))))) := by
          rw [hcs3]
          exact dropWhile_append_stop _ _ _ hallne (headStop_cons _ _ _ (by decide))
        have hwcore : (prettyList (ind + 2) (XmlList.cons x xs) ++
            (indentChars ind ++ ('<' :: '/' :: ((tc :: tt) ++ '>' :: rest)))).dropWhile
            isWsChar = '<' :: (tcx :: (bodyx ++ ('\n' :: (prettyList (ind + 2) xs ++
              (indentChars ind ++ ('<' :: '/' :: ((tc :: tt) ++ '>' :: rest))))))) := by
          rw [hPL]
          exact dropWhile_append_stop _ _ _ (indent_all_ws _) (headStop_cons _ _ _ (by decide))
        have hclose2 : startsCloseB (indentChars ind ++
            ('<' :: '/' :: ((tc :: tt) ++ '>' :: rest))) = true := by
          simp only [startsCloseB, hdwR]
          exact isCloseAhead_close _
        have hwlist : wfList (XmlList.cons x xs) = true := by
          simp [wfList, hwx, hwxs]
        have hBres : parseChildren f (prettyList (ind + 2) (XmlList.cons x xs) ++
            (indentChars ind ++ ('<' :: '/' :: ((tc :: tt) ++ '>' :: rest)))) =
            some (XmlList.cons x xs,
              (indentChars ind ++ ('<' :: '/' :: ((tc :: tt) ++ '>' :: rest))).dropWhile
                isWsChar) :=
          (ih f (by omega)).2 (XmlList.cons x xs) (ind + 2) _ hwlist (by omega) hclose2
        have hp3 : parseChildren f (List.dropWhile (fun d => d != '<') ('\n' ::
            (prettyList (ind + 2) (XmlList.cons x xs) ++
              (indentChars ind ++ ('<' :: '/' :: ((tc :: tt) ++ '>' :: rest)))))) =
            some (XmlList.cons x xs, '<' :: '/' :: ((tc :: tt) ++ '>' :: rest)) := by
          rw [hdrop3, ← hwcore, parseChildren_dropWs, hBres, hdwR]
        have hws3 : (List.takeWhile (fun d => d != '<') ('\n' ::
            (prettyList (ind + 2) (XmlList.cons x xs) ++
              (indentChars ind ++ ('<' :: '/' :: ((tc :: tt) ++ '>' :: rest)))))).all
            isWsChar = true := by
          rw [htake3]; exact hallws2
        have hct3 : closeTag (tc :: tt) ('<' :: '/' :: ((tc :: tt) ++ '>' :: rest)) =
            some rest := closeTag_render (tc :: tt) rest htag2
        rw [hT, List.cons_append, List.cons_append, parseTagBody_open, List.append_assoc,
          List.append_assoc, hcl]
        rw [parseContent_step_children (parseChildren f) (tc :: tt) attrs _
          (XmlList.cons x xs) _ rest hws3 hp3 hct3]
  · intro l ind rest hw hcount hclose
    cases fuel with
    | zero => exact absurd hcount (by have := countList_pos l; omega)
    | succ f =>
      cases l with
      | nil =>
        simp only [prettyList, List.nil_append]
        exact parseChildren_succ_close f rest hclose
      | cons x xs =>
        simp only [wfList, Bool.and_eq_true] at hw
        obtain ⟨hwx, hwxs⟩ := hw
        simp only [countList] at hcount
        obtain ⟨tcx, bodyx, hshape, htcx⟩ := prettyXmlCore_shape ind x hwx
        have hin : prettyList ind (XmlList.cons x xs) ++ rest =
            prettyXmlCore ind x ++ ('\n' :: (prettyList ind xs ++ rest)) := by
          simp [prettyList, List.cons_append, List.append_assoc]
        have hin2 : prettyList ind (XmlList.cons x xs) ++ rest =
            indentChars ind ++ ('<' :: (tcx :: (bodyx ++ ('\n' ::
              (prettyList ind xs ++ rest))))) := by
          rw [hin, hshape]
          simp [List.cons_append, List.append_assoc]
        have hdw : (prettyList ind (XmlList.cons x xs) ++ rest).dropWhile isWsChar =
            '<' :: (tcx :: (bodyx ++ ('\n' :: (prettyList ind xs ++ rest)))) := by
          rw [hin2]
          exact dropWhile_append_stop _ _ _ (indent_all_ws ind) (headStop_cons _ _ _ (by decide))
        have hno : isCloseAhead ((prettyList ind (XmlList.cons x xs) ++
            rest).dropWhile isWsChar) = false := by
          rw [hdw]; exact isCloseAhead_open tcx _ htcx
        have he : parseElem f ((prettyList ind (XmlList.cons x xs) ++
            rest).dropWhile isWsChar) = some (x, '\n' :: (prettyList ind xs ++ rest)) := by
          rw [parseElem_dropWs, hin]
          exact (ih f (by omega)).1 x ind _ hwx (by omega)
        have hcs : parseChildren f ('\n' :: (prettyList ind xs ++ rest)) =
            some (xs, rest.dropWhile isWsChar) := by
          rw [← parseChildren_dropWs f ('\n' :: (prettyList ind xs ++ rest)),
            dropWhile_ws_nl, parseChildren_dropWs]
          exact (ih f (by omega)).2 xs ind rest hwxs (by omega) hclose
        exact parseChildren_step_cons f _ x _ xs _ hno he hcs

theorem renderAttrs_len : ∀ attrs : List (String × String),
    attrs.length ≤ (renderAttrs attrs).length := by
  intro attrs
  induction attrs with
  | nil => simp [renderAttrs]
  | cons kv rest ih =>
    obtain ⟨k, v⟩ := kv
    simp only [renderAttrs, List.length_cons, List.length_append]
    omega

mutual
theorem countXml_le (t : Xml) (ind : Nat) : countXml t ≤ (prettyXmlCore ind t).length := by
  obtain ⟨tag, attrs, txt, children⟩ := t
  have hra := renderAttrs_len attrs
  cases children with
  | nil =>
    by_cases ht : txt = ""
    · simp [countXml, countList, prettyXmlCore, prettyTail, isNilB, ht,
        List.length_append]
      omega
    · simp [countXml, countList, prettyXmlCore, prettyTail, prettyClose, isNilB, ht,
        List.length_append]
      omega
  | cons x xs =>
    have h1 := countList_le (XmlList.cons x xs) (ind + 2)
    simp only [countXml, prettyXmlCore, prettyTail, prettyClose, isNilB,
      Bool.not_false, if_pos, List.length_append, List.length_cons] at h1 ⊢
    omega

theorem countList_le (l : XmlList) (ind : Nat) :
    countList l ≤ (prettyList ind l).length + 1 := by
  cases l with
  | nil => simp [countList, prettyList]
  | cons x xs =>
    have h1 := countXml_le x ind
    have h2 := countList_le xs ind
    simp only [countList, prettyList, List.length_append, List.length_cons] at h1 h2 ⊢
    omega
end

theorem fromstring_tostring (t : Xml) (hw : wfXml t = true) :
    fromstringModel (tostring_pretty t) = .ok t := by
  have hcount : countXml t ≤ (String.mk (prettyXml 0 t)).length + 1 := by
    have h1 := countXml_le t 0
    have h2 : (String.mk (prettyXml 0 t)).length = (prettyXmlCore 0 t).length + 1 := by
      simp [prettyXml, String.length, List.length_append]
    omega
  have hp := (parse_pretty ((String.mk (prettyXml 0 t)).length + 1)).1 t 0 ['\n'] hw hcount
  unfold tostring_pretty fromstringModel
  rw [show (String.mk (prettyXml 0 t)).data = prettyXmlCore 0 t ++ ['\n'] from rfl, hp]
  rfl

/-!
## Lemmas about the wrapper operations
-/

theorem planeConstraints_drop (pre post : List (String × Int)) (k : String) (v : Int)
    (hk : ZISRAW_DIMS.contains k = false) :
    planeConstraints (pre ++ (k, v) :: post) = planeConstraints (pre ++ post) := by
  have hk2 : k ∉ ZISRAW_DIMS := by simpa using hk
  simp [planeConstraints, List.filter_append, List.filter_cons, hk2]

theorem get_m_index_drop (b : Bool) (pre post : List (String × Int)) (k : String) (v : Int)
    (hm : k ≠ "M") :
    get_m_index_from_kwargs b (pre ++ (k, v) :: post) =
      get_m_index_from_kwargs b (pre ++ post) := by
  have hkm : (k == "M") = false := beq_eq_false_iff_ne.mpr hm
  have hany : ((pre ++ (k, v) :: post).any fun kv => kv.1 == "M") =
      ((pre ++ post).any fun kv => kv.1 == "M") := by
    simp [List.any_append, List.any_cons, hkm]
  have hfind : ((pre ++ (k, v) :: post).find? fun kv => kv.1 == "M") =
      ((pre ++ post).find? fun kv => kv.1 == "M") := by
    simp [List.find?_append, List.find?_cons, hkm]
  simp only [get_m_index_from_kwargs, hany, hfind]

theorem planeConstraints_filter_m (kwargs : List (String × Int)) :
    planeConstraints (kwargs.filter (fun kv => kv.1 != "M")) = planeConstraints kwargs := by
  simp only [planeConstraints, List.filter_filter]
  refine List.filter_congr (fun kv _ => ?_)
  cases hcz : ZISRAW_DIMS.contains kv.1 with
  | false => simp [hcz]
  | true =>
    have hne : kv.1 ≠ "M" := by
      intro he
      rw [he] at hcz
      exact absurd hcz (by decide)
    simp [hcz, hne]

theorem metaAccess_write (r : Reader) (p : String) (st : MetaCtx) (root : Xml)
    (st2 : MetaCtx) (hp : p ≠ "") (hok : metaAccess r p st = .ok (root, st2)) :
    st2.fileWrites.lookup p = some (tostring_pretty root) := by
  unfold metaAccess at hok
  cases hpp : metaParsePhase r st with
  | error e => rw [hpp] at hok; exact absurd hok (by simp)
  | ok st1 =>
    rw [hpp] at hok
    have hok2 : (match st1.metaRoot with
        | none => (.error .xmlSyntaxError : Except PyError (Xml × MetaCtx))
        | some root => .ok (metaWrite p root st1)) = .ok (root, st2) := hok
    cases hmr : st1.metaRoot with
    | none => rw [hmr] at hok2; exact absurd hok2 (by simp)
    | some root1 =>
      rw [hmr] at hok2
      simp only [Except.ok.injEq] at hok2
      unfold metaWrite at hok2
      rw [if_neg hp] at hok2
      have h1 : root1 = root := congrArg Prod.fst hok2
      have h2 := congrArg Prod.snd hok2
      simp only at h2
      rw [← h2, h1]
      simp [List.lookup]

/-!
## Claim theorems
-/

/-- C1 (counterexample): the claim says `read_mosaic` with an `M` keyword on
a non-mosaic container fails with the overspecified-coordinate error.  On
the concrete non-mosaic reader it instead succeeds: the `M` key is not in
`ZISRAW_DIMS`, so `read_mosaic` silently drops it and calls the native
reader. -/
theorem C1_counterexample :
    (read_mosaic sampleNonMosaicReader none 1 [("M", 0)]).1 =
      .ok (sampleNonMosaicReader.readMosaicNative (planeConstraints [("M", 0)]) 1
        (IntRect.mk 0 0 (-1) (-1))) := rfl

/-- C1 (amended): supplying the tile-index keyword `M` on a non-mosaic
container makes `read_image` and `read_subblock_metadata` fail with the
overspecified-coordinate error; `read_mosaic`, however, silently drops the
`M` keyword (it never consults `_get_m_index_from_kwargs`, and `M` is not in
`ZISRAW_DIMS`), behaving exactly as if `M` had not been supplied. -/
theorem C1_m_index_validation (r : Reader) (kwargs : List (String × Int)) (sf : Rat)
    (hm : r.isMosaicFlag = false)
    (hin : kwargs.any (fun kv => kv.1 == "M") = true) :
    read_image r kwargs = .error (.overspecified overspecMsg) ∧
    read_subblock_metadata r kwargs = .error (.overspecified overspecMsg) ∧
    read_mosaic r none sf kwargs =
      read_mosaic r none sf (kwargs.filter (fun kv => kv.1 != "M")) := by
  have hgm : get_m_index_from_kwargs r.isMosaicFlag kwargs =
      .error (.overspecified overspecMsg) := by
    simp [get_m_index_from_kwargs, hin, hm]
  refine ⟨?_, ?_, ?_⟩
  · simp [read_image, hgm]
  · simp [read_subblock_metadata, hgm]
  · simp [read_mosaic, planeConstraints_filter_m]

/-- C1 (witness): the amended claim at the concrete non-mosaic reader with
kwargs `{M: 0}`. -/
theorem C1_witness :
    read_image sampleNonMosaicReader [("M", 0)] = .error (.overspecified overspecMsg) ∧
    read_subblock_metadata sampleNonMosaicReader [("M", 0)] =
      .error (.overspecified overspecMsg) ∧
    read_mosaic sampleNonMosaicReader none 1 [("M", 0)] =
      read_mosaic sampleNonMosaicReader none 1
        ([("M", 0)].filter (fun kv => kv.1 != "M")) :=
  C1_m_index_validation sampleNonMosaicReader [("M", 0)] 1 rfl (by decide)

/-- C2: `read_mosaic_size` returns exactly the sentinel rectangle
`(0, 0, -1, -1)` (and raises nothing — it is a total function) whenever
`is_mosaic()` is false, and the native mosaic bounding box whenever it is
true. -/
theorem C2_read_mosaic_size (r : Reader) :
    (r.isMosaicFlag = false → read_mosaic_size r = IntRect.mk 0 0 (-1) (-1)) ∧
    (r.isMosaicFlag = true → read_mosaic_size r = r.mosaicBBoxNative) := by
  constructor <;> intro h <;> simp [read_mosaic_size, h]

/-- C2 (witness): the sentinel on a concrete non-mosaic reader and the
native bounding box on a concrete mosaic reader. -/
theorem C2_witness :
    read_mosaic_size sampleNonMosaicReader = IntRect.mk 0 0 (-1) (-1) ∧
    read_mosaic_size sampleMosaicReader = IntRect.mk 0 0 2000 1000 :=
  ⟨(C2_read_mosaic_size sampleNonMosaicReader).1 rfl,
   by rw [(C2_read_mosaic_size sampleMosaicReader).2 rfl]; rfl⟩

/-- C3: `convert_to_buffer` classifies every source argument exactly as the
claim says: a path that does not resolve fails with the not-found error, a
path resolving to a directory fails with `IsADirectoryError`, a value of an
unsupported type fails with `TypeError`, and every accepted source kind
(path, `bytes`, `io.BytesIO`, `io.BufferedReader`, or the in-memory
`numpy.ndarray` buffer) produces a readable buffer. -/
theorem C3_open_validation (fs : PathFS) (p typename : String) (b : List Nat)
    (bh nid : Nat) :
    (fs.fileExists p = false →
      convert_to_buffer fs (.pathStr p) = .error (.fileNotFoundError p) ∧
      convert_to_buffer fs (.pathObj p) = .error (.fileNotFoundError p)) ∧
    (fs.fileExists p = true → fs.isDir p = true →
      convert_to_buffer fs (.pathStr p) = .error (.isADirectoryError p) ∧
      convert_to_buffer fs (.pathObj p) = .error (.isADirectoryError p)) ∧
    (fs.fileExists p = true → fs.isDir p = false →
      convert_to_buffer fs (.pathStr p) = .ok (.fileHandle p) ∧
      convert_to_buffer fs (.pathObj p) = .ok (.fileHandle p)) ∧
    convert_to_buffer fs (.otherVal typename) = .error (.typeError (typeErrMsg typename)) ∧
    convert_to_buffer fs (.bytesVal b) = .ok (.bytesBuffer b) ∧
    convert_to_buffer fs (.bytesBuffer b) = .ok (.bytesBuffer b) ∧
    convert_to_buffer fs (.bufferedReader bh) = .ok (.bufferedReader bh) ∧
    convert_to_buffer fs (.ndarray nid) = .ok (.ndarrayBuf nid) := by
  refine ⟨fun he => ?_, fun he hd => ?_, fun he hd => ?_, rfl, rfl, rfl, rfl, rfl⟩
  · constructor <;> simp [convert_to_buffer, convertPath, he]
  · constructor <;> simp [convert_to_buffer, convertPath, he, hd]
  · constructor <;> simp [convert_to_buffer, convertPath, he, hd]

/-- C3 (witness): the classification at a concrete filesystem with a
missing path, a directory, a regular file, an unsupported `int` source and a
bytes source. -/
theorem C3_witness :
    convert_to_buffer sampleFS (.pathStr "missing.czi") =
      .error (.fileNotFoundError "missing.czi") ∧
    convert_to_buffer sampleFS (.pathStr "somedir") =
      .error (.isADirectoryError "somedir") ∧
    convert_to_buffer sampleFS (.pathStr "file.czi") = .ok (.fileHandle "file.czi") ∧
    convert_to_buffer sampleFS (.otherVal "int") = .error (.typeError (typeErrMsg "int")) ∧
    convert_to_buffer sampleFS (.bytesVal [1, 2]) = .ok (.bytesBuffer [1, 2]) :=
  ⟨((C3_open_validation sampleFS "missing.czi" "int" [1, 2] 0 0).1 (by decide)).1,
   (((C3_open_validation sampleFS "somedir" "int" [1, 2] 0 0).2.1) (by decide) (by decide)).1,
   (((C3_open_validation sampleFS "file.czi" "int" [1, 2] 0 0).2.2.1) (by decide) (by decide)).1,
   (C3_open_validation sampleFS "x" "int" [1, 2] 0 0).2.2.2.1,
   (C3_open_validation sampleFS "x" "int" [1, 2] 0 0).2.2.2.2.1⟩

/-- C4: a keyword whose axis symbol is outside `ZISRAW_DIMS` and is not `M`
is silently dropped by `read_image`, `read_subblock_metadata` and
`read_mosaic`: the call behaves exactly as if the keyword had not been
supplied, and no error is raised. -/
theorem C4_unknown_keys_dropped (r : Reader) (pre post : List (String × Int))
    (k : String) (v : Int) (region : Option (List Int)) (sf : Rat)
    (hk : ZISRAW_DIMS.contains k = false) (hm : k ≠ "M") :
    read_image r (pre ++ (k, v) :: post) = read_image r (pre ++ post) ∧
    read_subblock_metadata r (pre ++ (k, v) :: post) =
      read_subblock_metadata r (pre ++ post) ∧
    read_mosaic r region sf (pre ++ (k, v) :: post) =
      read_mosaic r region sf (pre ++ post) := by
  refine ⟨?_, ?_, ?_⟩ <;>
    simp [read_image, read_subblock_metadata, read_mosaic,
      planeConstraints_drop pre post k v hk, get_m_index_drop _ pre post k v hm]

/-- C4 (witness): dropping the unknown axis `Q` between `C` and `Z`
constraints on the concrete reader. -/
theorem C4_witness :
    read_image sampleNonMosaicReader ([("C", 1)] ++ ("Q", 5) :: [("Z", 2)]) =
      read_image sampleNonMosaicReader ([("C", 1)] ++ [("Z", 2)]) ∧
    read_subblock_metadata sampleNonMosaicReader ([("C", 1)] ++ ("Q", 5) :: [("Z", 2)]) =
      read_subblock_metadata sampleNonMosaicReader ([("C", 1)] ++ [("Z", 2)]) ∧
    read_mosaic sampleNonMosaicReader none 1 ([("C", 1)] ++ ("Q", 5) :: [("Z", 2)]) =
      read_mosaic sampleNonMosaicReader none 1 ([("C", 1)] ++ [("Z", 2)]) :=
  C4_unknown_keys_dropped sampleNonMosaicReader [("C", 1)] [("Z", 2)] "Q" 5 none 1
    (by decide) (by decide)

/-- C5 (code bug, evaluation at the failing input): on a container whose
metadata XML is `"<A/>"` — a root element with no children — the cache guard
`if not self.meta_root:` sees a falsy `lxml` element (element truthiness is
`len(element) > 0`), so the second access to `meta` re-reads and re-parses
the metadata block: the parse counter reaches 2, refuting "parsed exactly
once and cached". -/
theorem C5_meta_reparse_eval :
    metaAccess sampleEmptyMetaReader "" initialMetaCtx =
      .ok (emptyRoot, MetaCtx.mk (some emptyRoot) 1 []) ∧
    metaAccess sampleEmptyMetaReader "" (MetaCtx.mk (some emptyRoot) 1 []) =
      .ok (emptyRoot, MetaCtx.mk (some emptyRoot) 2 []) := ⟨rfl, rfl⟩

/-- C6: when an export path is configured, accessing `meta` writes the
pretty-printed serialisation of the in-memory document to that path, and the
round trip holds: parsing the written text back yields exactly the in-memory
document (the parser discards the whitespace that pretty-printing inserted,
which realises the "modulo pretty-printing whitespace" clause). -/
theorem C6_metadata_export_roundtrip (r : Reader) (p : String) (st st2 : MetaCtx)
    (root : Xml) (hp : p ≠ "") (hok : metaAccess r p st = .ok (root, st2))
    (hwf : wfXml root = true) :
    st2.fileWrites.lookup p = some (tostring_pretty root) ∧
    fromstringModel (tostring_pretty root) = .ok root :=
  ⟨metaAccess_write r p st root st2 hp hok, fromstring_tostring root hwf⟩

/-- C6 (witness): the export and round trip at the concrete reader whose
metadata is `"<A><B/></A>"`, exported to `out.xml`. -/
theorem C6_witness :
    (MetaCtx.mk (some sampleRoot) 1
      [("out.xml", tostring_pretty sampleRoot)]).fileWrites.lookup "out.xml" =
      some (tostring_pretty sampleRoot) ∧
    fromstringModel (tostring_pretty sampleRoot) = .ok sampleRoot :=
  C6_metadata_export_roundtrip sampleNonMosaicReader "out.xml" initialMetaCtx
    (MetaCtx.mk (some sampleRoot) 1 [("out.xml", tostring_pretty sampleRoot)])
    sampleRoot (by decide) rfl rfl

/-- C7: with no region and the default scale factor, `read_mosaic` makes
exactly one native call, passing the constructed plane constraints, the
default scale factor 0.1 and the undefined-rectangle sentinel with
`w = h = -1`; the native reader (modelled from the spec) then uses the full
mosaic bounding box, and the returned array has shape
`(1, scaled_height, scaled_width)`. -/
theorem C7_read_mosaic_defaults (r : Reader) (kwargs : List (String × Int)) :
    read_mosaic r none defaultScaleFactor kwargs =
      (.ok (Img.mk [1, scaleDim r.mosaicBBoxNative.h defaultScaleFactor,
        scaleDim r.mosaicBBoxNative.w defaultScaleFactor]),
       [(planeConstraints kwargs, defaultScaleFactor, IntRect.mk 0 0 (-1) (-1))]) := by
  simp [read_mosaic, Reader.readMosaicNative]

/-- C8: `scene_height_by_width` is consistent with `scene_bounding_box`:
whenever the bounding box of scene `i` is `(x, y, w, h)`, the
height-by-width accessor returns exactly `(h, w)` — both methods read the
same native scene rectangle (Python default index `-1` selects the first
scene and is covered by the universal quantifier). -/
theorem C8_scene_bbox_height_width (r : Reader) (i x y w hgt : Int)
    (hbb : scene_bounding_box r i = (x, y, w, hgt)) :
    scene_height_by_width r i = (hgt, w) := by
  simp only [scene_bounding_box, Prod.mk.injEq] at hbb
  obtain ⟨h1, h2, h3, h4⟩ := hbb
  simp [scene_height_by_width, h3, h4]

/-- C8 (witness): the consistency at the concrete reader and the default
scene index `-1`. -/
theorem C8_witness : scene_height_by_width sampleNonMosaicReader (-1) = (10, 20) :=
  C8_scene_bbox_height_width sampleNonMosaicReader (-1) 3 4 20 10 rfl

/-- C9: every validation failure of `convert_to_buffer` propagates out of
`CziFile.__init__` unchanged and before the native reader is constructed:
the instrumented constructor returns the same error and a native-reader
construction count of zero. -/
theorem C9_validation_before_native (fs : PathFS) (mkNativeReader : Buffer → Reader)
    (f : FileLike) (m : String) (e : PyError)
    (h : convert_to_buffer fs f = .error e) :
    cziFileInit fs mkNativeReader f m = (.error e, 0) := by
  simp [cziFileInit, h]

/-- C9 (witness): an unsupported source type fails before any native
resource is acquired. -/
theorem C9_witness :
    cziFileInit sampleFS mkSampleReader (.otherVal "int") "" =
      (.error (.typeError (typeErrMsg "int")), 0) :=
  C9_validation_before_native sampleFS mkSampleReader (.otherVal "int") ""
    (.typeError (typeErrMsg "int")) rfl

/-- C10: `read_mosaic` with an explicit region whose length is not 4 raises
`AssertionError` before building the extraction rectangle and makes no
native call (the trace of native calls is empty); a region of length 4 is
always unpacked positionally as `(x, y, w, h)` into the rectangle passed to
the native reader. -/
theorem C10_region_assert (r : Reader) (reg : List Int) (sf : Rat)
    (kwargs : List (String × Int)) (h : reg.length ≠ 4) :
    read_mosaic r (some reg) sf kwargs = (.error .assertionError, []) ∧
    (∀ a b c d : Int, read_mosaic r (some [a, b, c, d]) sf kwargs =
      (.ok (r.readMosaicNative (planeConstraints kwargs) sf (IntRect.mk a b c d)),
       [(planeConstraints kwargs, sf, IntRect.mk a b c d)])) := by
  constructor
  · rcases reg with _ | ⟨a, _ | ⟨b, _ | ⟨c, _ | ⟨d, _ | ⟨e0, tail⟩⟩⟩⟩⟩
    · rfl
    · rfl
    · rfl
    · rfl
    · exact absurd rfl h
    · rfl
  · intro a b c d
    rfl

/-- C10 (witness): a length-3 region raises the assertion with no native
call, and a concrete length-4 region is unpacked positionally. -/
theorem C10_witness :
    read_mosaic sampleNonMosaicReader (some [1, 2, 3]) 1 [] =
      (.error .assertionError, []) ∧
    read_mosaic sampleNonMosaicReader (some [5, 6, 7, 8]) 1 [] =
      (.ok (sampleNonMosaicReader.readMosaicNative (planeConstraints []) 1
        (IntRect.mk 5 6 7 8)),
       [(planeConstraints [], 1, IntRect.mk 5 6 7 8)]) :=
  ⟨(C10_region_assert sampleNonMosaicReader [1, 2, 3] 1 [] (by decide)).1,
   (C10_region_assert sampleNonMosaicReader [1, 2, 3] 1 [] (by decide)).2 5 6 7 8⟩

end Aicspylibczi
